import Mathlib

/-!
Verification development for the cogno-aid-stream backend.

We give a shallow embedding (over `ℚ`, with exact arithmetic) of the
confusion-scoring pipeline (`backend/bci/confusion_detector.py`), the
per-channel signal buffers and artifact-quality scoring
(`backend/bci/data_processor.py`), the websocket fan-out hub
(`backend/websocket/connection_manager.py`), and the sampling loop of
`backend/main.py`.  Machine floats are modelled as rationals; where the
behaviour of Python floats on NaN matters, a dedicated `PyFloat` type with
Python's `min`/`max` comparison semantics is used.
-/

namespace CognoAid

/-! ## ConfusionDetector (backend/bci/confusion_detector.py) -/

/-- The feature values consumed by `ConfusionDetector._calculate_confusion_score`.
`_extract_features` also derives `theta_alpha` and `beta_alpha` quotient fields,
but the scorer reads only the four fields below, so the embedding carries
exactly those. -/
structure Features where
  theta_power : ℚ
  alpha_power : ℚ
  beta_power : ℚ
  cognitive_load_index : ℚ
deriving DecidableEq, Repr

/-- The mutable attributes of a `ConfusionDetector` instance
(`__init__`, lines 13-19).  `window_size` is the constant 50. -/
structure DetectorState where
  confusion_history : List ℚ
  baseline_established : Bool
  baseline_alpha : ℚ
  baseline_beta : ℚ
  baseline_theta : ℚ
deriving DecidableEq, Repr

/-- `ConfusionDetector.__init__`: empty history, uncalibrated, zero baselines. -/
def DetectorState.init : DetectorState :=
  { confusion_history := []
    baseline_established := false
    baseline_alpha := 0
    baseline_beta := 0
    baseline_theta := 0 }

/-- `self.window_size = 50`. -/
def window_size : ℕ := 50

/-- `ConfusionDetector._establish_baseline` (lines 163-172): when the history
holds more than 10 entries, set every baseline to the constant 1.0 and mark
the detector calibrated.  (The source also computes an average of the last 10
history entries but discards it.) -/
def establish_baseline (s : DetectorState) : DetectorState :=
  if s.confusion_history.length > 10 then
    { s with
        baseline_alpha := 1
        baseline_beta := 1
        baseline_theta := 1
        baseline_established := true }
  else s

/-- `ConfusionDetector._calculate_confusion_score` (lines 129-161).
The argument `variation` stands for the value of
`np.sin(asyncio.get_event_loop().time() * 0.1) * 0.1` at the moment of the
call (line 154): a time-dependent real in [-1/10, 1/10], passed in as an
input of the embedding.  Returns the possibly-recalibrated state together
with the raw (pre-smoothing) score. -/
def calculate_confusion_score (s : DetectorState) (f : Features) (variation : ℚ) :
    DetectorState × ℚ :=
  let s1 := if !s.baseline_established && decide (s.confusion_history.length > 10)
            then establish_baseline s else s
  let theta_score := min (f.theta_power / max s1.baseline_theta 1) 2 - 1
  let alpha_score := 1 - min (f.alpha_power / max s1.baseline_alpha 1) 2
  let beta_score := min (f.beta_power / max s1.baseline_beta 1) 2 - 1
  let cognitive_load := min (f.cognitive_load_index / 2) 1
  let confusion_score :=
    3/10 * max theta_score 0 + 3/10 * max alpha_score 0 +
    2/10 * max beta_score 0 + 2/10 * cognitive_load
  (s1, confusion_score + variation)

/-- `ConfusionDetector._smooth_confusion_level` (lines 174-184): with an empty
history the raw level passes through; otherwise an exponential moving average
against the last history entry with smoothing factor 0.3. -/
def smooth_confusion_level (history : List ℚ) (new_level : ℚ) : ℚ :=
  match history.getLast? with
  | none => new_level
  | some previous_level => 3/10 * new_level + (1 - 3/10) * previous_level

/-- `ConfusionDetector.analyze_confusion` (lines 21-49), success path: compute
the raw score, smooth it, append the smoothed value to the history (evicting
the oldest entry beyond `window_size`), and return the smoothed value clamped
to [0, 1]. -/
def analyze_confusion (s : DetectorState) (f : Features) (variation : ℚ) :
    DetectorState × ℚ :=
  let p := calculate_confusion_score s f variation
  let smoothed := smooth_confusion_level p.1.confusion_history p.2
  let h1 := p.1.confusion_history ++ [smoothed]
  let h2 := if h1.length > window_size then h1.tail else h1
  ({ p.1 with confusion_history := h2 }, min (max smoothed 0) 1)

/-- A run of the sampling pipeline: `n` successive `analyze_confusion` calls
from the freshly constructed detector, with arbitrary per-tick features `fs`
and per-tick variation values `vs`. -/
def run (fs : ℕ → Features) (vs : ℕ → ℚ) : ℕ → DetectorState
  | 0 => DetectorState.init
  | n + 1 => (analyze_confusion (run fs vs n) (fs n) (vs n)).1

/-! ## Python float semantics for the clamp (NaN behaviour)

A Python float is either NaN or (modelled exactly) a rational.  Every
comparison against NaN is `False`; CPython's two-argument `max(a, b)` keeps
`a` unless `b > a`, and `min(a, b)` keeps `a` unless `b < a`, so both return
their first argument whenever it is NaN, and arithmetic on NaN yields NaN.
This namespace re-runs `analyze_confusion` under those semantics. -/

inductive PyFloat where
  | nan : PyFloat
  | fin : ℚ → PyFloat
deriving DecidableEq, Repr

namespace PyFloat

/-- Python `<` on floats: any comparison with NaN is false. -/
def pylt : PyFloat → PyFloat → Bool
  | fin x, fin y => decide (x < y)
  | _, _ => false

/-- Python `>` on floats: any comparison with NaN is false. -/
def pygt : PyFloat → PyFloat → Bool
  | fin x, fin y => decide (x > y)
  | _, _ => false

/-- CPython two-argument `max`: start from the first argument, replace it
only when the second compares strictly greater. -/
def pymax (a b : PyFloat) : PyFloat := if pygt b a then b else a

/-- CPython two-argument `min`: start from the first argument, replace it
only when the second compares strictly less. -/
def pymin (a b : PyFloat) : PyFloat := if pylt b a then b else a

def pyadd : PyFloat → PyFloat → PyFloat
  | fin x, fin y => fin (x + y)
  | _, _ => nan

def pysub : PyFloat → PyFloat → PyFloat
  | fin x, fin y => fin (x - y)
  | _, _ => nan

def pymul : PyFloat → PyFloat → PyFloat
  | fin x, fin y => fin (x * y)
  | _, _ => nan

/-- Division; the scorer only ever divides by `max(baseline, 1.0)` and by
`2.0`, so the zero-divisor case (a `ZeroDivisionError` in Python) is never
reached on the paths we analyse. -/
def pydiv : PyFloat → PyFloat → PyFloat
  | fin x, fin y => if y = 0 then nan else fin (x / y)
  | _, _ => nan

/-- Whether a Python float is an actual number lying in [0, 1]. -/
def inUnit : PyFloat → Bool
  | nan => false
  | fin q => decide (0 ≤ q ∧ q ≤ 1)

end PyFloat

/-- `Features`, with each value a Python float (possibly NaN: `np.mean` over a
PSD computed from NaN samples is NaN, raising no exception). -/
structure PyFeatures where
  theta_power : PyFloat
  alpha_power : PyFloat
  beta_power : PyFloat
  cognitive_load_index : PyFloat
deriving DecidableEq, Repr

/-- `DetectorState` with Python-float baselines and history. -/
structure PyDetectorState where
  confusion_history : List PyFloat
  baseline_established : Bool
  baseline_alpha : PyFloat
  baseline_beta : PyFloat
  baseline_theta : PyFloat
deriving DecidableEq, Repr

/-- `ConfusionDetector.__init__` under Python-float semantics. -/
def PyDetectorState.init : PyDetectorState :=
  { confusion_history := []
    baseline_established := false
    baseline_alpha := .fin 0
    baseline_beta := .fin 0
    baseline_theta := .fin 0 }

open PyFloat in
/-- `_calculate_confusion_score` under Python-float semantics (the baseline
branch is identical to `establish_baseline`; none of the lines raises, so the
surrounding `try` never returns the fallback 0.0 on these inputs). -/
def py_calculate_confusion_score (s : PyDetectorState) (f : PyFeatures)
    (variation : PyFloat) : PyDetectorState × PyFloat :=
  let s1 := if !s.baseline_established && decide (s.confusion_history.length > 10)
            then if s.confusion_history.length > 10 then
                   { s with baseline_alpha := .fin 1, baseline_beta := .fin 1,
                            baseline_theta := .fin 1, baseline_established := true }
                 else s
            else s
  let theta_score := pysub (pymin (pydiv f.theta_power (pymax s1.baseline_theta (fin 1))) (fin 2)) (fin 1)
  let alpha_score := pysub (fin 1) (pymin (pydiv f.alpha_power (pymax s1.baseline_alpha (fin 1))) (fin 2))
  let beta_score := pysub (pymin (pydiv f.beta_power (pymax s1.baseline_beta (fin 1))) (fin 2)) (fin 1)
  let cognitive_load := pymin (pydiv f.cognitive_load_index (fin 2)) (fin 1)
  let confusion_score :=
    pyadd (pyadd (pyadd (pymul (fin (3/10)) (pymax theta_score (fin 0)))
                        (pymul (fin (3/10)) (pymax alpha_score (fin 0))))
                 (pymul (fin (2/10)) (pymax beta_score (fin 0))))
          (pymul (fin (2/10)) cognitive_load)
  (s1, pyadd confusion_score variation)

open PyFloat in
/-- `_smooth_confusion_level` under Python-float semantics. -/
def py_smooth_confusion_level (history : List PyFloat) (new_level : PyFloat) : PyFloat :=
  match history.getLast? with
  | none => new_level
  | some previous_level =>
      pyadd (pymul (fin (3/10)) new_level) (pymul (fin (7/10)) previous_level)

open PyFloat in
/-- `analyze_confusion` under Python-float semantics, in particular the final
line `min(max(confusion_score, 0.0), 1.0)`. -/
def py_analyze_confusion (s : PyDetectorState) (f : PyFeatures)
    (variation : PyFloat) : PyDetectorState × PyFloat :=
  let p := py_calculate_confusion_score s f variation
  let smoothed := py_smooth_confusion_level p.1.confusion_history p.2
  let h1 := p.1.confusion_history ++ [smoothed]
  let h2 := if h1.length > window_size then h1.tail else h1
  ({ p.1 with confusion_history := h2 }, pymin (pymax smoothed (fin 0)) (fin 1))

/-! ## DataProcessor (backend/bci/data_processor.py) -/

/-- `self.buffer_size = sample_rate * 2` (2 seconds of data, line 15). -/
def buffer_size (sample_rate : ℕ) : ℕ := sample_rate * 2

/-- `self.amplitude_threshold = 200.0` microvolts. -/
def amplitude_threshold : ℚ := 200

/-- `self.gradient_threshold = 50.0` microvolts per sample. -/
def gradient_threshold : ℚ := 50

/-- A single `deque(maxlen=capacity).append(x)`: the new sample goes on the
right; when the deque is full the leftmost (oldest) sample is discarded. -/
def buffer_append (capacity : ℕ) (buf : List ℚ) (x : ℚ) : List ℚ :=
  let b := buf ++ [x]
  if b.length > capacity then b.tail else b

/-- Feeding a stream of samples into one channel's buffer, as the loop at
lines 54-60 of `process_eeg_signal` does (scalar and array data alike append
sample by sample). -/
def buffer_feed (capacity : ℕ) (buf : List ℚ) (xs : List ℚ) : List ℚ :=
  xs.foldl (buffer_append capacity) buf

/-- The last `n` elements of a list, in order. -/
def takeLast (n : ℕ) (l : List ℚ) : List ℚ := l.drop (l.length - n)

/-- `np.diff`: successive sample-to-sample deltas. -/
def np_diff (sig : List ℚ) : List ℚ := List.zipWith (fun a b => b - a) sig sig.tail

/-- `DataProcessor._check_amplitude_artifacts` (lines 160-165). -/
def check_amplitude_artifacts (sig : List ℚ) : ℚ :=
  let artifact_samples := (sig.filter (fun v => decide (|v| > amplitude_threshold))).length
  max (1 - (artifact_samples : ℚ) / (sig.length : ℚ)) 0

/-- `DataProcessor._check_gradient_artifacts` (lines 167-173). -/
def check_gradient_artifacts (sig : List ℚ) : ℚ :=
  let gradient := np_diff sig
  let artifact_samples := (gradient.filter (fun v => decide (|v| > gradient_threshold))).length
  max (1 - (artifact_samples : ℚ) / (gradient.length : ℚ)) 0

/-- Scalar `np.interp` over a sorted table of (abscissa, value) points:
clamps outside the table, linear between neighbouring points.  Reached only
with at least two points (`len(valid_indices) > 1`). -/
def np_interp (x : ℚ) : List (ℚ × ℚ) → ℚ
  | [] => 0
  | [(_, f1)] => f1
  | (x1, f1) :: (x2, f2) :: rest =>
      if x ≤ x1 then f1
      else if x ≤ x2 then f1 + (f2 - f1) * (x - x1) / (x2 - x1)
      else np_interp x ((x2, f2) :: rest)

/-- `DataProcessor._correct_artifacts` (lines 175-200): replace every sample
whose magnitude exceeds the amplitude threshold by the linear interpolation
of the surrounding valid samples (indices as abscissae), provided at least
two valid samples exist. -/
def correct_artifacts (sig : List ℚ) : List ℚ :=
  let pts := sig.enum
  let valid := pts.filter (fun p => decide (|p.2| ≤ amplitude_threshold))
  let any_outlier := pts.any (fun p => decide (|p.2| > amplitude_threshold))
  if any_outlier && decide (valid.length > 1) then
    pts.map (fun p =>
      if |p.2| > amplitude_threshold
      then np_interp (p.1 : ℚ) (valid.map (fun q => ((q.1 : ℚ), q.2)))
      else p.2)
  else sig

/-- `DataProcessor._detect_artifacts` (lines 138-158): quality is the mean of
the two sub-scores, computed on the incoming signal; correction (if the
quality is poor) applies afterwards and does not feed back into the score.
A window of fewer than 2 samples makes `np.diff`-based scoring divide by
zero, which raises in Python and lands in the handler returning
`(signal_data, 0.5)`; the guard below models that path. -/
def detect_artifacts (sig : List ℚ) : List ℚ × ℚ :=
  if sig.length < 2 then (sig, 1/2)
  else
    let amplitude_quality := check_amplitude_artifacts sig
    let gradient_quality := check_gradient_artifacts sig
    let quality_score := (amplitude_quality + gradient_quality) / 2
    let corrected := if quality_score < 1/2 then correct_artifacts sig else sig
    (corrected, quality_score)

/-! ## ConnectionManager (backend/websocket/connection_manager.py) -/

/-- Outcome of one `ConnectionManager.broadcast` call.  Connections are
opaque handles, modelled as naturals; `ok c` tells whether
`c.send_text(...)` succeeds during this broadcast. -/
structure BroadcastResult where
  attempted : List ℕ
  delivered : List ℕ
  remaining : List ℕ
deriving DecidableEq, Repr

/-- `ConnectionManager.broadcast` (lines 51-68): attempt the send on every
current connection (failures are caught, collected in order, and never abort
the loop); afterwards `_handle_connection_error` removes each failed
connection from the active list (`List.diff` is exactly that left fold of
`erase` over the failed ones). -/
def broadcast (ok : ℕ → Bool) (active_connections : List ℕ) : BroadcastResult :=
  let disconnected_clients := active_connections.filter (fun c => !ok c)
  { attempted := active_connections
    delivered := active_connections.filter (fun c => ok c)
    remaining := active_connections.diff disconnected_clients }

/-! ## main.py: globals, sampling loop, threshold handler -/

/-- The module-level globals of `backend/main.py` that the sampling loop
reads (lines 38-40). -/
structure AppGlobals where
  current_confusion_level : ℚ
  confusion_threshold : ℚ
deriving DecidableEq, Repr

/-- Initial globals: `current_confusion_level = 0.0`, `confusion_threshold = 0.7`. -/
def AppGlobals.init : AppGlobals :=
  { current_confusion_level := 0, confusion_threshold := 7/10 }

/-- `ConnectionManager._handle_threshold_update` (lines 163-178): read the
requested threshold from the payload (default 0.7), clamp it into [0, 1],
and broadcast a `threshold_updated` message carrying the clamped value.
The manager module holds no reference to `main`'s globals; the embedding
threads `AppGlobals` through the call so that any update to the process-wide
threshold would be visible in the returned state.  The second component is
the threshold value placed in the broadcast message. -/
def handle_threshold_update (g : AppGlobals) (payload_threshold : Option ℚ) :
    AppGlobals × ℚ :=
  let threshold := payload_threshold.getD (7/10)
  let threshold := max 0 (min 1 threshold)
  (g, threshold)

/-- The HTTP endpoint `update_threshold` (`POST /threshold`, lines 148-153),
which — unlike the websocket handler — does write the global. -/
def update_threshold_endpoint (g : AppGlobals) (threshold : ℚ) : AppGlobals :=
  { g with confusion_threshold := max 0 (min 1 threshold) }

/-- The externally visible actions of one `bci_data_loop` tick, in program
order. -/
inductive Event where
  | captureScreen
  | analyzeScreenshot
  | generateHelp
  | broadcastHelpSuggestion
  | broadcastConfusionUpdate
  | sleepTick
deriving DecidableEq, Repr

/-- `handle_confusion_threshold` (main.py lines 111-137): screenshot capture,
screenshot analysis, help generation, then the `help_suggestion` broadcast,
each awaited in sequence. -/
def handle_confusion_threshold_events : List Event :=
  [.captureScreen, .analyzeScreenshot, .generateHelp, .broadcastHelpSuggestion]

/-- The action trace of one connected `bci_data_loop` iteration with a fresh
sample (main.py lines 86-104): line 92 is `await handle_confusion_threshold()`,
a plain coroutine await, so when the threshold is exceeded every action of the
advisory pipeline runs to completion inside the tick, before the tick's own
`confusion_update` broadcast (line 95) and before the `asyncio.sleep(0.1)`
(line 104) that admits the next tick. -/
def tick_events (level threshold : ℚ) : List Event :=
  (if level > threshold then handle_confusion_threshold_events else []) ++
  [.broadcastConfusionUpdate, .sleepTick]

/-- The raw (pre-smoothing) confusion score exactly as the specification
states it for a calibrated scorer: the weighted sum
`0.3·max(theta_score,0) + 0.3·max(alpha_score,0) + 0.2·max(beta_score,0) +
0.2·cognitive_load` over unit baselines, with no other additive terms.
Stated from the spec's words, to be compared against
`calculate_confusion_score`. -/
def spec_raw_score (f : Features) : ℚ :=
  let theta_score := min (f.theta_power / 1) 2 - 1
  let alpha_score := 1 - min (f.alpha_power / 1) 2
  let beta_score := min (f.beta_power / 1) 2 - 1
  let cognitive_load := min (f.cognitive_load_index / 2) 1
  3/10 * max theta_score 0 + 3/10 * max alpha_score 0 +
  2/10 * max beta_score 0 + 2/10 * cognitive_load

/-- The history value under a constant stream of identical raw scores `r`
starting from a last recorded score `p`: each tick stores
`_smooth_confusion_level` of `r` against the previous stored value. -/
def smooth_iter (p r : ℚ) : ℕ → ℚ
  | 0 => p
  | n + 1 => 3/10 * r + (1 - 3/10) * smooth_iter p r n

/-! ## Helper lemmas -/

lemma smooth_iter_bounds (p r : ℚ) (n : ℕ) :
    min p r ≤ smooth_iter p r n ∧ smooth_iter p r n ≤ max p r := by
  induction n with
  | zero => exact ⟨min_le_left p r, le_max_left p r⟩
  | succ n ih =>
      have h1 : min p r ≤ r := min_le_right p r
      have h2 : r ≤ max p r := le_max_right p r
      constructor
      · show min p r ≤ 3/10 * r + (1 - 3/10) * smooth_iter p r n
        nlinarith [ih.1]
      · show 3/10 * r + (1 - 3/10) * smooth_iter p r n ≤ max p r
        nlinarith [ih.2]

lemma calc_score_fst (s : DetectorState) (f : Features) (v : ℚ) :
    (calculate_confusion_score s f v).1 =
      if !s.baseline_established && decide (s.confusion_history.length > 10)
      then establish_baseline s else s := rfl

lemma establish_baseline_history (s : DetectorState) :
    (establish_baseline s).confusion_history = s.confusion_history := by
  unfold establish_baseline; split <;> rfl

lemma calc_fst_history (s : DetectorState) (f : Features) (v : ℚ) :
    (calculate_confusion_score s f v).1.confusion_history = s.confusion_history := by
  rw [calc_score_fst]; split
  · exact establish_baseline_history s
  · rfl

lemma calc_fst_established (s : DetectorState) (f : Features) (v : ℚ) :
    (calculate_confusion_score s f v).1.baseline_established =
      (s.baseline_established || decide (s.confusion_history.length > 10)) := by
  rw [calc_score_fst]
  cases hb : s.baseline_established <;>
    by_cases hl : 10 < s.confusion_history.length <;>
      simp [hb, hl, establish_baseline]

lemma calc_fst_theta (s : DetectorState) (f : Features) (v : ℚ) :
    (calculate_confusion_score s f v).1.baseline_theta =
      if !s.baseline_established && decide (s.confusion_history.length > 10)
      then 1 else s.baseline_theta := by
  rw [calc_score_fst]
  cases hb : s.baseline_established <;>
    by_cases hl : 10 < s.confusion_history.length <;>
      simp [hb, hl, establish_baseline]

lemma calc_fst_alpha (s : DetectorState) (f : Features) (v : ℚ) :
    (calculate_confusion_score s f v).1.baseline_alpha =
      if !s.baseline_established && decide (s.confusion_history.length > 10)
      then 1 else s.baseline_alpha := by
  rw [calc_score_fst]
  cases hb : s.baseline_established <;>
    by_cases hl : 10 < s.confusion_history.length <;>
      simp [hb, hl, establish_baseline]

lemma calc_fst_beta (s : DetectorState) (f : Features) (v : ℚ) :
    (calculate_confusion_score s f v).1.baseline_beta =
      if !s.baseline_established && decide (s.confusion_history.length > 10)
      then 1 else s.baseline_beta := by
  rw [calc_score_fst]
  cases hb : s.baseline_established <;>
    by_cases hl : 10 < s.confusion_history.length <;>
      simp [hb, hl, establish_baseline]

lemma takeLast_of_le (n : ℕ) (l : List ℚ) (h : l.length ≤ n) : takeLast n l = l := by
  unfold takeLast
  have h0 : l.length - n = 0 := by omega
  rw [h0, List.drop_zero]

lemma takeLast_cons (n : ℕ) (a : ℚ) (l : List ℚ) (h : n ≤ l.length) :
    takeLast n (a :: l) = takeLast n l := by
  unfold takeLast
  have h1 : (a :: l).length - n = (l.length - n) + 1 := by
    simp only [List.length_cons]; omega
  rw [h1, List.drop_succ_cons]

lemma takeLast_tail (n : ℕ) (l : List ℚ) (h : n + 1 ≤ l.length) :
    takeLast n l.tail = takeLast n l := by
  cases l with
  | nil => simp at h
  | cons a t =>
      simp only [List.tail_cons]
      exact (takeLast_cons n a t (by simp only [List.length_cons] at h; omega)).symm

lemma buffer_feed_eq_takeLast (cap : ℕ) (xs : List ℚ) :
    ∀ buf : List ℚ, buf.length ≤ cap →
      buffer_feed cap buf xs = takeLast cap (buf ++ xs) := by
  induction xs with
  | nil =>
      intro buf h
      simp only [buffer_feed, List.foldl_nil, List.append_nil]
      exact (takeLast_of_le cap buf h).symm
  | cons x t ih =>
      intro buf h
      show buffer_feed cap (buffer_append cap buf x) t = _
      by_cases hlen : (buf ++ [x]).length > cap
      · have happ : buffer_append cap buf x = (buf ++ [x]).tail := by
          unfold buffer_append
          simp only [hlen, if_pos]
        have htl : ((buf ++ [x]).tail).length ≤ cap := by
          simp only [List.length_tail, List.length_append, List.length_singleton]
          simp only [List.length_append, List.length_singleton] at hlen
          omega
        rw [happ, ih _ htl, ← List.tail_append_of_ne_nil (by simp : buf ++ [x] ≠ []),
            takeLast_tail]
        · congr 1
          simp [List.append_assoc]
        · simp only [List.length_append, List.length_singleton] at hlen ⊢
          omega
      · have happ : buffer_append cap buf x = buf ++ [x] := by
          unfold buffer_append
          rw [if_neg hlen]
        have hle : (buf ++ [x]).length ≤ cap := Nat.le_of_not_lt hlen
        rw [happ, ih _ hle]
        congr 1
        simp [List.append_assoc]

lemma filter_eq_single {l : List ℕ} {c : ℕ} {p : ℕ → Bool}
    (hnd : l.Nodup) (hc : c ∈ l) (hp : ∀ d ∈ l, (p d = true ↔ d = c)) :
    l.filter p = [c] := by
  induction l with
  | nil => simp at hc
  | cons a t ih =>
      rcases List.mem_cons.mp hc with rfl | hct
      · have hpa : p c = true := (hp c (List.mem_cons_self c t)).mpr rfl
        have hnotin : c ∉ t := (List.nodup_cons.mp hnd).1
        have hft : t.filter p = [] := by
          rw [List.filter_eq_nil_iff]
          intro d hd hpd
          exact hnotin (((hp d (List.mem_cons_of_mem _ hd)).mp hpd) ▸ hd)
        simp [List.filter_cons, hpa, hft]
      · have hane : a ≠ c := by
          rintro rfl
          exact (List.nodup_cons.mp hnd).1 hct
        have hpa : p a = false := by
          cases hb : p a
          · rfl
          · exact absurd ((hp a (List.mem_cons_self a t)).mp hb) hane
        rw [List.filter_cons, if_neg (by simp [hpa])]
        exact ih (List.nodup_cons.mp hnd).2 hct
          (fun d hd => hp d (List.mem_cons_of_mem _ hd))

lemma np_diff_length (sig : List ℚ) : (np_diff sig).length = sig.length - 1 := by
  unfold np_diff
  rw [List.length_zipWith, List.length_tail]
  omega

lemma getLast?_if_tail (L : List ℚ) (x : ℚ) :
    (if (L ++ [x]).length > window_size then (L ++ [x]).tail
     else L ++ [x]).getLast? = some x := by
  split
  · next h =>
      cases L with
      | nil => simp [window_size] at h
      | cons a t =>
          simp only [List.cons_append, List.tail_cons]
          exact List.getLast?_concat _
  · exact List.getLast?_concat _

lemma analyze_fst_established (s : DetectorState) (f : Features) (v : ℚ) :
    (analyze_confusion s f v).1.baseline_established =
      (calculate_confusion_score s f v).1.baseline_established := rfl

lemma analyze_fst_theta (s : DetectorState) (f : Features) (v : ℚ) :
    (analyze_confusion s f v).1.baseline_theta =
      (calculate_confusion_score s f v).1.baseline_theta := rfl

lemma analyze_fst_alpha (s : DetectorState) (f : Features) (v : ℚ) :
    (analyze_confusion s f v).1.baseline_alpha =
      (calculate_confusion_score s f v).1.baseline_alpha := rfl

lemma analyze_fst_beta (s : DetectorState) (f : Features) (v : ℚ) :
    (analyze_confusion s f v).1.baseline_beta =
      (calculate_confusion_score s f v).1.baseline_beta := rfl

lemma analyze_fst_history (s : DetectorState) (f : Features) (v : ℚ) :
    (analyze_confusion s f v).1.confusion_history =
      (if (s.confusion_history ++
            [smooth_confusion_level s.confusion_history
              (calculate_confusion_score s f v).2]).length > window_size
       then (s.confusion_history ++
            [smooth_confusion_level s.confusion_history
              (calculate_confusion_score s f v).2]).tail
       else s.confusion_history ++
            [smooth_confusion_level s.confusion_history
              (calculate_confusion_score s f v).2]) := by
  show (if ((calculate_confusion_score s f v).1.confusion_history ++ _).length > _
        then _ else _) = _
  rw [calc_fst_history]

lemma analyze_fst_history_length (s : DetectorState) (f : Features) (v : ℚ)
    (h : s.confusion_history.length ≤ 50) :
    (analyze_confusion s f v).1.confusion_history.length =
      min (s.confusion_history.length + 1) 50 := by
  rw [analyze_fst_history]
  split
  · next hgt =>
      simp only [List.length_tail, List.length_append, List.length_singleton]
      simp only [List.length_append, List.length_singleton, window_size] at hgt
      omega
  · next hle =>
      simp only [List.length_append, List.length_singleton]
      simp only [List.length_append, List.length_singleton, window_size] at hle
      omega

/-! ## Claims -/

/-- C1: the claim asserts that every value returned by
`analyze_confusion` lies in [0, 1], including for NaN-producing features.
The code evaluated at the failing input: with `theta_power = NaN` (and the
remaining features 0), `analyze_confusion` returns NaN — Python's
`min(max(x, 0.0), 1.0)` keeps its first argument whenever the comparison
with NaN is false, so NaN passes through the clamp unchanged, and NaN is
not a number in [0, 1].  This contradicts the function's own docstring
("return confusion level (0.0 to 1.0)") and the comment on the final line
("Clamp to [0, 1]"). -/
theorem C1_nan_escapes_the_clamp :
    (py_analyze_confusion PyDetectorState.init
        ⟨.nan, .fin 0, .fin 0, .fin 0⟩ (.fin 0)).2 = PyFloat.nan ∧
    PyFloat.inUnit PyFloat.nan = false := by
  exact ⟨rfl, rfl⟩

/-- C2: the claim asserts that on a threshold crossing the advisory pipeline
is dispatched as an independent concurrent task that does not block the
sampling loop's next tick.  The code evaluated at the failing input (level
0.8, threshold 0.7): line 92 of `main.py` is `await
handle_confusion_threshold()`, so the tick's trace runs the whole advisory
pipeline — screenshot capture, screenshot analysis, help generation and the
`help_suggestion` broadcast — to completion strictly before the tick's own
`confusion_update` broadcast and before the sleep that admits the next
tick.  The dispatch is synchronous, not fire-and-forget. -/
theorem C2_advisory_dispatch_is_synchronous :
    tick_events (4/5) (7/10) =
      [Event.captureScreen, Event.analyzeScreenshot, Event.generateHelp,
       Event.broadcastHelpSuggestion, Event.broadcastConfusionUpdate,
       Event.sleepTick] := by
  norm_num [tick_events, handle_confusion_threshold_events]

/-- C3: the claim asserts that the `set_threshold` handler clamps the value
into [0, 1], updates the process-wide threshold read by the sampling loop,
and broadcasts the new value.  The code evaluated at the failing input
(`set_threshold` with value 0.3 while the global threshold is 0.7):
`_handle_threshold_update` broadcasts `threshold_updated` carrying the
clamped 0.3, but writes no state at all — the globals are returned
unchanged, so the sampling loop keeps comparing against 0.7 while every
client was just told the threshold is 0.3. -/
theorem C3_set_threshold_never_updates_the_global :
    handle_threshold_update AppGlobals.init (some (3/10)) =
      (AppGlobals.init, 3/10) ∧
    (handle_threshold_update AppGlobals.init (some (3/10))).1.confusion_threshold
      = 7/10 ∧
    ((7:ℚ)/10 ≠ 3/10) ∧
    (handle_threshold_update AppGlobals.init (some 5)).2 = 1 ∧
    (handle_threshold_update AppGlobals.init (some (-1))).2 = 0 := by
  refine ⟨?_, ?_, by norm_num, ?_, ?_⟩ <;>
    norm_num [handle_threshold_update, AppGlobals.init, min_def, max_def]

/-- C4 counterexample: the claim — that the raw pre-smoothing score equals
exactly the weighted sum of the four component scores with no other
additive terms — is false at a concrete input.  For a calibrated scorer,
all-zero features, and `sin(0.1·t)·0.1 = 1/10` at the call, the code
produces 2/5 while the claimed formula gives 3/10 (line 155 of
`confusion_detector.py` adds the time-dependent variation term). -/
theorem C4_variation_term_counterexample :
    (calculate_confusion_score ⟨[], true, 1, 1, 1⟩ ⟨0, 0, 0, 0⟩ (1/10)).2 = 2/5 ∧
    spec_raw_score ⟨0, 0, 0, 0⟩ = 3/10 ∧
    ((2:ℚ)/5 ≠ 3/10) := by
  refine ⟨by norm_num [calculate_confusion_score, establish_baseline],
          by norm_num [spec_raw_score], by norm_num⟩

/-- C4 (amended): for every features input scored after calibration
(baselines fixed at 1.0), the raw pre-smoothing score equals the
specification's weighted sum PLUS the demo variation term
`0.1·sin(0.1·t)` sampled at the call (a value in [-1/10, 1/10]); apart
from that one extra additive term the score is the deterministic function
of the features and baselines that the claim describes. -/
theorem C4_raw_score_is_weighted_sum_plus_variation
    (s : DetectorState) (f : Features) (v : ℚ)
    (hest : s.baseline_established = true) (hth : s.baseline_theta = 1)
    (hal : s.baseline_alpha = 1) (hbe : s.baseline_beta = 1) :
    (calculate_confusion_score s f v).2 = spec_raw_score f + v := by
  simp [calculate_confusion_score, spec_raw_score, hest, hth, hal, hbe]

/-- C5: along every run of the pipeline (any features and variation
streams), the detector starts uncalibrated and the `Uncalibrated →
Calibrated` transition happens exactly once — the flag is false through the
11th scored sample (`n ≤ 11`) and true from the 12th call on, i.e. it flips
at the first scoring call that finds more than 10 entries in the confusion
history (the history holds exactly 11 entries right after the 11th sample),
it sets all three baseline reference levels to the constant 1.0, and once
calibrated the detector never reverts: the equalities below pin the flag
and the baselines for every `n`, so the transition is one-way. -/
theorem C5_calibration_transition_once_and_monotone
    (fs : ℕ → Features) (vs : ℕ → ℚ) (n : ℕ) :
    (run fs vs n).baseline_established = decide (12 ≤ n) ∧
    (run fs vs n).confusion_history.length = min n 50 ∧
    (run fs vs n).baseline_theta = (if 12 ≤ n then 1 else 0) ∧
    (run fs vs n).baseline_alpha = (if 12 ≤ n then 1 else 0) ∧
    (run fs vs n).baseline_beta = (if 12 ≤ n then 1 else 0) := by
  induction n with
  | zero => refine ⟨?_, ?_, ?_, ?_, ?_⟩ <;> simp [run, DetectorState.init]
  | succ n ih =>
      obtain ⟨ihE, ihL, ihT, ihA, ihB⟩ := ih
      have hcond : (!(run fs vs n).baseline_established &&
          decide ((run fs vs n).confusion_history.length > 10)) =
          decide (n = 11) := by
        rw [ihE, ihL]
        by_cases h11 : n = 11
        · simp [h11]
        · by_cases h12 : 12 ≤ n
          · simp [h12, h11]
          · have : ¬ (10 < min n 50) := by omega
            simp [h12, h11, this]
      have hlen : (run fs vs n).confusion_history.length ≤ 50 := by
        rw [ihL]; omega
      refine ⟨?_, ?_, ?_, ?_, ?_⟩
      · show (analyze_confusion (run fs vs n) (fs n) (vs n)).1.baseline_established = _
        rw [analyze_fst_established, calc_fst_established, ihE, ihL]
        by_cases h12 : 12 ≤ n + 1
        · by_cases h12n : 12 ≤ n
          · simp [h12, h12n]
          · have h11 : 10 < min n 50 := by omega
            simp [h12, h12n, h11]
        · have h12n : ¬ 12 ≤ n := by omega
          have h11 : ¬ (10 < min n 50) := by omega
          simp [h12, h12n, h11]
      · show (analyze_confusion (run fs vs n) (fs n) (vs n)).1.confusion_history.length = _
        rw [analyze_fst_history_length _ _ _ hlen, ihL]
        omega
      · show (analyze_confusion (run fs vs n) (fs n) (vs n)).1.baseline_theta = _
        rw [analyze_fst_theta, calc_fst_theta, hcond, ihT]
        by_cases h11 : n = 11
        · simp [h11]
        · by_cases h12 : 12 ≤ n
          · simp [h11, h12, show 12 ≤ n + 1 by omega]
          · simp [h11, h12, show ¬ 12 ≤ n + 1 by omega]
      · show (analyze_confusion (run fs vs n) (fs n) (vs n)).1.baseline_alpha = _
        rw [analyze_fst_alpha, calc_fst_alpha, hcond, ihA]
        by_cases h11 : n = 11
        · simp [h11]
        · by_cases h12 : 12 ≤ n
          · simp [h11, h12, show 12 ≤ n + 1 by omega]
          · simp [h11, h12, show ¬ 12 ≤ n + 1 by omega]
      · show (analyze_confusion (run fs vs n) (fs n) (vs n)).1.baseline_beta = _
        rw [analyze_fst_beta, calc_fst_beta, hcond, ihB]
        by_cases h11 : n = 11
        · simp [h11]
        · by_cases h12 : 12 ≤ n
          · simp [h11, h12, show 12 ≤ n + 1 by omega]
          · simp [h11, h12, show ¬ 12 ≤ n + 1 by omega]

/-- C6: the smoothing step computes `smoothed = 0.3·raw + 0.7·previous`,
where `previous` is the last history entry (the raw value itself when the
history is empty), and it is a contraction: the smoothed value always lies
in `[min(previous, raw), max(previous, raw)]`.  Consequently, under a
constant stream of identical raw scores `r` (the recurrence `smooth_iter`),
every iterate stays inside `[min(p, r), max(p, r)]` — it never overshoots —
and the distance to `r` shrinks by the exact factor 7/10 each tick, a
monotone approach to `r`. -/
theorem C6_smoothing_is_a_contraction :
    (∀ r : ℚ, smooth_confusion_level [] r = r) ∧
    (∀ (h : List ℚ) (p r : ℚ),
        smooth_confusion_level (h ++ [p]) r = 3/10 * r + 7/10 * p) ∧
    (∀ (h : List ℚ) (p r : ℚ),
        min p r ≤ smooth_confusion_level (h ++ [p]) r ∧
        smooth_confusion_level (h ++ [p]) r ≤ max p r) ∧
    (∀ (p r : ℚ) (n : ℕ),
        smooth_iter p r (n + 1) = smooth_confusion_level [smooth_iter p r n] r) ∧
    (∀ (p r : ℚ) (n : ℕ),
        |smooth_iter p r (n + 1) - r| = 7/10 * |smooth_iter p r n - r| ∧
        |smooth_iter p r (n + 1) - r| ≤ |smooth_iter p r n - r| ∧
        min p r ≤ smooth_iter p r n ∧ smooth_iter p r n ≤ max p r) := by
  have key : ∀ (h : List ℚ) (p r : ℚ),
      smooth_confusion_level (h ++ [p]) r = 3/10 * r + 7/10 * p := by
    intro h p r
    simp only [smooth_confusion_level, List.getLast?_concat]
    ring
  refine ⟨fun r => rfl, key, ?_, ?_, ?_⟩
  · intro h p r
    rw [key]
    rcases le_total p r with hpr | hpr
    · rw [min_eq_left hpr, max_eq_right hpr]
      constructor <;> nlinarith
    · rw [min_eq_right hpr, max_eq_left hpr]
      constructor <;> nlinarith
  · intro p r n
    show _ = smooth_confusion_level ([] ++ [smooth_iter p r n]) r
    rw [key]
    show 3/10 * r + (1 - 3/10) * smooth_iter p r n = _
    ring
  · intro p r n
    have hstep : smooth_iter p r (n + 1) - r = 7/10 * (smooth_iter p r n - r) := by
      show 3/10 * r + (1 - 3/10) * smooth_iter p r n - r = _
      ring
    have habs : |smooth_iter p r (n + 1) - r| = 7/10 * |smooth_iter p r n - r| := by
      rw [hstep, abs_mul, abs_of_pos (by norm_num : (0:ℚ) < 7/10)]
    refine ⟨habs, ?_, (smooth_iter_bounds p r n).1, (smooth_iter_bounds p r n).2⟩
    rw [habs]
    nlinarith [abs_nonneg (smooth_iter p r n - r)]

/-- C7: a channel buffer has capacity `sample_rate * 2` (256 samples at the
default 128 Hz); feeding any stream of samples into a freshly created
buffer leaves exactly the most recent `capacity` samples, in order (oldest
evicted first), and the buffer length never exceeds the capacity. -/
theorem C7_channel_buffer_fifo_capacity (sample_rate : ℕ) (xs : List ℚ) :
    buffer_size 128 = 256 ∧
    buffer_feed (buffer_size sample_rate) [] xs =
      takeLast (buffer_size sample_rate) xs ∧
    (buffer_feed (buffer_size sample_rate) [] xs).length ≤
      buffer_size sample_rate := by
  have hfeed := buffer_feed_eq_takeLast (buffer_size sample_rate) xs []
    (by simp)
  simp only [List.nil_append] at hfeed
  refine ⟨rfl, hfeed, ?_⟩
  rw [hfeed]
  unfold takeLast
  rw [List.length_drop]
  omega

/-- C8: when a broadcast to `N` distinct subscribers hits exactly one
subscriber `c` whose delivery fails, the message is still attempted on
every current subscriber, `c` — and only `c` — is removed from the active
set (leaving `N - 1` subscribers), and a subsequent broadcast reaches all
of the remaining `N - 1`; the broadcast itself is a total function (every
per-subscriber failure is caught inside the loop), so it never aborts or
propagates the failure. -/
theorem C8_broadcast_removes_only_the_failed_subscriber
    (ok : ℕ → Bool) (conns : List ℕ) (c : ℕ)
    (hnd : conns.Nodup) (hc : c ∈ conns)
    (hok : ∀ d ∈ conns, (ok d = false ↔ d = c)) :
    (broadcast ok conns).attempted = conns ∧
    (broadcast ok conns).delivered = conns.erase c ∧
    (broadcast ok conns).remaining = conns.erase c ∧
    c ∉ (broadcast ok conns).remaining ∧
    (broadcast ok conns).remaining.length + 1 = conns.length ∧
    (∀ ok2 : ℕ → Bool, (∀ d, ok2 d = true) →
      (broadcast ok2 (broadcast ok conns).remaining).delivered =
        (broadcast ok conns).remaining ∧
      (broadcast ok2 (broadcast ok conns).remaining).remaining =
        (broadcast ok conns).remaining) := by
  have hdel : conns.filter (fun d => ok d) = conns.erase c := by
    rw [hnd.erase_eq_filter c]
    apply List.filter_congr
    intro d hd
    by_cases hdc : d = c
    · subst hdc
      simp [(hok d hd).mpr rfl]
    · have hT : ok d = true := by
        cases hb : ok d
        · exact absurd ((hok d hd).mp hb) hdc
        · rfl
      simp [hT, bne_iff_ne, hdc]
  have hfail : conns.filter (fun d => !ok d) = [c] := by
    apply filter_eq_single hnd hc
    intro d hd
    simp only [Bool.not_eq_true']
    exact hok d hd
  have hrem : (broadcast ok conns).remaining = conns.erase c := by
    show conns.diff (conns.filter (fun d => !ok d)) = _
    rw [hfail, List.diff_cons, List.diff_nil]
  have hpos : 0 < conns.length := List.length_pos.mpr (List.ne_nil_of_mem hc)
  refine ⟨rfl, hdel, hrem, ?_, ?_, ?_⟩
  · rw [hrem]
    exact hnd.not_mem_erase
  · rw [hrem, List.length_erase_of_mem hc]
    omega
  · intro ok2 hok2
    constructor
    · show ((broadcast ok conns).remaining).filter (fun d => ok2 d) = _
      exact List.filter_eq_self.mpr (fun a _ => hok2 a)
    · show ((broadcast ok conns).remaining).diff
        (((broadcast ok conns).remaining).filter (fun d => !ok2 d)) = _
      rw [List.filter_eq_nil_iff.mpr (fun a _ => by simp [hok2 a]), List.diff_nil]

/-- C8 witness: the theorem applied with subscribers 1, 2, 3 of which
exactly subscriber 2 fails delivery. -/
theorem C8_witness :
    ([1, 2, 3] : List ℕ).Nodup ∧ (2 : ℕ) ∈ [1, 2, 3] ∧
    (broadcast (fun d => d != 2) [1, 2, 3]).remaining = [1, 2, 3].erase 2 ∧
    (broadcast (fun d => d != 2) [1, 2, 3]).attempted = [1, 2, 3] := by
  have h := C8_broadcast_removes_only_the_failed_subscriber
    (fun d => d != 2) [1, 2, 3] 2 (by decide) (by decide) (by decide)
  exact ⟨by decide, by decide, h.2.2.1, h.1⟩

/-- C9: for every conditioned window of at least 2 samples,
amplitude-quality equals `1 − (fraction of samples with |value| > 200 µV)`
and gradient-quality equals `1 − (fraction of successive deltas with
|Δ| > 50 µV/sample)` (the `max(·, 0)` guards in the code are identities
because each fraction lies in [0, 1]); the overall quality score returned
by `_detect_artifacts` is the mean of the two — computed from the incoming
signal before any artifact correction, which happens afterwards and does
not feed back into the score — and is nonnegative; a window with exactly
half its samples over the amplitude threshold scores amplitude-quality
1/2, and a window with no gradient violations scores gradient-quality 1. -/
theorem C9_quality_is_mean_of_subscores (sig : List ℚ) (h2 : 2 ≤ sig.length) :
    amplitude_threshold = 200 ∧ gradient_threshold = 50 ∧
    check_amplitude_artifacts sig =
      1 - ((sig.filter (fun v => decide (|v| > amplitude_threshold))).length : ℚ) /
        (sig.length : ℚ) ∧
    check_gradient_artifacts sig =
      1 - (((np_diff sig).filter
          (fun v => decide (|v| > gradient_threshold))).length : ℚ) /
        ((np_diff sig).length : ℚ) ∧
    (detect_artifacts sig).2 =
      (check_amplitude_artifacts sig + check_gradient_artifacts sig) / 2 ∧
    0 ≤ (detect_artifacts sig).2 ∧
    (2 * (sig.filter (fun v => decide (|v| > amplitude_threshold))).length =
        sig.length → check_amplitude_artifacts sig = 1/2) ∧
    ((np_diff sig).filter (fun v => decide (|v| > gradient_threshold)) = [] →
      check_gradient_artifacts sig = 1) := by
  have hlen0 : (0:ℚ) < (sig.length : ℚ) := by
    have h0 : 0 < sig.length := by omega
    exact_mod_cast h0
  have hglen : (np_diff sig).length = sig.length - 1 := np_diff_length sig
  have hglen0 : (0:ℚ) < ((np_diff sig).length : ℚ) := by
    have h0 : 0 < (np_diff sig).length := by omega
    exact_mod_cast h0
  have hacnt := List.length_filter_le (fun v => decide (|v| > amplitude_threshold)) sig
  have hgcnt := List.length_filter_le (fun v => decide (|v| > gradient_threshold))
    (np_diff sig)
  have hafrac : ((sig.filter (fun v => decide (|v| > amplitude_threshold))).length : ℚ) /
      (sig.length : ℚ) ≤ 1 := by
    rw [div_le_one hlen0]
    exact_mod_cast hacnt
  have hgfrac : (((np_diff sig).filter
      (fun v => decide (|v| > gradient_threshold))).length : ℚ) /
      ((np_diff sig).length : ℚ) ≤ 1 := by
    rw [div_le_one hglen0]
    exact_mod_cast hgcnt
  have hamp : check_amplitude_artifacts sig =
      1 - ((sig.filter (fun v => decide (|v| > amplitude_threshold))).length : ℚ) /
        (sig.length : ℚ) := by
    unfold check_amplitude_artifacts
    exact max_eq_left (by linarith)
  have hgrad : check_gradient_artifacts sig =
      1 - (((np_diff sig).filter
          (fun v => decide (|v| > gradient_threshold))).length : ℚ) /
        ((np_diff sig).length : ℚ) := by
    unfold check_gradient_artifacts
    exact max_eq_left (by linarith)
  have hdet : (detect_artifacts sig).2 =
      (check_amplitude_artifacts sig + check_gradient_artifacts sig) / 2 := by
    unfold detect_artifacts
    rw [if_neg (by omega)]
  have hampnn : 0 ≤ check_amplitude_artifacts sig := le_max_right _ _
  have hgradnn : 0 ≤ check_gradient_artifacts sig := le_max_right _ _
  refine ⟨rfl, rfl, hamp, hgrad, hdet, by rw [hdet]; linarith, ?_, ?_⟩
  · intro hhalf
    rw [hamp]
    have hcast : 2 * ((sig.filter
        (fun v => decide (|v| > amplitude_threshold))).length : ℚ) =
        (sig.length : ℚ) := by
      exact_mod_cast congrArg (Nat.cast : ℕ → ℚ) hhalf
    have hhalfq : ((sig.filter
        (fun v => decide (|v| > amplitude_threshold))).length : ℚ) /
        (sig.length : ℚ) = 1/2 := by
      rw [div_eq_div_iff (ne_of_gt hlen0) (by norm_num : (2:ℚ) ≠ 0)]
      linarith
    rw [hhalfq]
    norm_num
  · intro hnil
    rw [hgrad, hnil]
    simp

/-- C9 witness: the theorem applied at the window `[0, 300, 0, 250]`, which
has 2 of its 4 samples over the amplitude threshold. -/
theorem C9_witness :
    2 ≤ ([0, 300, 0, 250] : List ℚ).length ∧
    (detect_artifacts [0, 300, 0, 250]).2 =
      (check_amplitude_artifacts [0, 300, 0, 250] +
       check_gradient_artifacts [0, 300, 0, 250]) / 2 :=
  ⟨by decide, (C9_quality_is_mean_of_subscores [0, 300, 0, 250]
    (by decide)).2.2.2.2.1⟩

/-- C10: on every successful scoring call the value appended to the
confusion history is the smoothed score before the [0,1] clamp (it becomes
the `previous` value for the next tick's smoothing), while the value
returned to the caller is the clamped `min(max(smoothed, 0), 1)`; and the
two genuinely differ — at a concrete calibrated state with maximal
features and variation 1/10 the stored entry is 11/10 > 1 while the caller
receives exactly 1. -/
theorem C10_history_stores_preclamp_smoothed_score :
    (∀ (s : DetectorState) (f : Features) (v : ℚ),
      (analyze_confusion s f v).1.confusion_history.getLast? =
        some (smooth_confusion_level s.confusion_history
          (calculate_confusion_score s f v).2) ∧
      (analyze_confusion s f v).2 =
        min (max (smooth_confusion_level s.confusion_history
          (calculate_confusion_score s f v).2) 0) 1) ∧
    ((analyze_confusion ⟨[], true, 1, 1, 1⟩ ⟨2, 0, 2, 2⟩
        (1/10)).1.confusion_history = [11/10] ∧
     (1:ℚ) < 11/10 ∧
     (analyze_confusion ⟨[], true, 1, 1, 1⟩ ⟨2, 0, 2, 2⟩ (1/10)).2 = 1) := by
  constructor
  · intro s f v
    constructor
    · rw [analyze_fst_history]
      exact getLast?_if_tail _ _
    · show min (max (smooth_confusion_level
          (calculate_confusion_score s f v).1.confusion_history
          (calculate_confusion_score s f v).2) 0) 1 = _
      rw [calc_fst_history]
  · refine ⟨?_, by norm_num, ?_⟩ <;>
      norm_num [analyze_confusion, calculate_confusion_score, establish_baseline,
        smooth_confusion_level, window_size, min_def, max_def]

/-- C4 witness: the amended theorem applied at a concrete calibrated state,
features, and variation value. -/
theorem C4_witness :
    (calculate_confusion_score ⟨[], true, 1, 1, 1⟩ ⟨7, 3, 1, 4⟩ (1/10)).2 =
      spec_raw_score ⟨7, 3, 1, 4⟩ + 1/10 :=
  C4_raw_score_is_weighted_sum_plus_variation ⟨[], true, 1, 1, 1⟩ ⟨7, 3, 1, 4⟩
    (1/10) rfl rfl rfl rfl

end CognoAid
